import Mathlib

/-!
Verification of the diff/hunk/patch engine of the Tentacle repository
(`src/tentacle/git_status_sidebar.py`), as a shallow embedding in Lean 4.

Python strings are modelled as Lean `String`, operated on through their
`List Char` data.  Python lists are Lean `List`.  Operations that interact
with the git backend or the file system take the backend's answers
(diff text, file status, file content, apply outcome) as explicit inputs,
and stateful code is modelled by explicit event traces.  Code that can
raise an uncaught exception is modelled with `Option` (`none` = the
exception propagates).
-/

namespace Tentacle

/-- Python `s[1:]`: drop the first character. -/
def pyTail (s : String) : String := String.mk s.data.tail

/-- Python `s[n:]`: drop the first `n` characters. -/
def pyDropN (s : String) (n : Nat) : String := String.mk (s.data.drop n)

/-- Python `s.startswith(pre)`, on character data. -/
def charsStartWith : List Char → List Char → Bool
  | [], _ => true
  | _ :: _, [] => false
  | c :: cs, d :: ds => c = d && charsStartWith cs ds

/-- Python `s.startswith(pre)`. -/
def pyStartsWith (s pre : String) : Bool := charsStartWith pre.data s.data

/-- Python `line[:1] == c` (equivalently `line and line[0] == c`):
the string is non-empty and its position-0 character is `c`. -/
def firstCharIs (s : String) (c : Char) : Bool :=
  match s.data with
  | [] => false
  | a :: _ => a = c

/-- The ASCII whitespace characters stripped by Python `str.strip()`
(space, tab, newline, carriage return, vertical tab, form feed). -/
def isPySpace (c : Char) : Bool :=
  c = ' ' || c = '\t' || c = '\n' || c = '\r' || c = '\x0b' || c = '\x0c'

/-- Python `s.strip()`: remove leading and trailing whitespace. -/
def pyStrip (s : String) : String :=
  String.mk (((s.data.dropWhile isPySpace).reverse.dropWhile isPySpace).reverse)

/-- Helper for Python `str.splitlines`: splits `cs` at every `'\n'`, the
accumulator holding the (reversed) characters of the current fragment. -/
def splitlinesAux : List Char → List Char → List (List Char)
  | [], acc => [acc.reverse]
  | c :: cs, acc =>
      if c = '\n' then acc.reverse :: splitlinesAux cs []
      else splitlinesAux cs (c :: acc)

/-- Python `s.splitlines()` (for `'\n'`-separated text, the only line
terminator occurring in the data this program handles): splits at every
newline and does not produce a trailing empty line when the string ends
with a newline; the empty string yields the empty list. -/
def splitlines (s : String) : List String :=
  if s.data = [] then []
  else if s.data.getLast? = some '\n' then
    ((splitlinesAux s.data []).map String.mk).dropLast
  else (splitlinesAux s.data []).map String.mk

/-- A diff hunk: `Hunk` dataclass of `git_status_sidebar.py` —
a header line and the body lines. -/
structure Hunk where
  header : String
  lines : List String
deriving DecidableEq, Repr

/-- `Hunk.__post_init__`: a trailing newline is removed from the header. -/
def stripTrailingNL (h : String) : String :=
  if h.data.getLast? = some '\n' then String.mk h.data.dropLast else h

/-- Constructing a `Hunk(header, lines)` in Python runs `__post_init__`,
which strips one trailing newline from the header. -/
def mkHunk (header : String) (lines : List String) : Hunk :=
  ⟨stripTrailingNL header, lines⟩

/-- Consume one or more `'d'` characters (the regex atom `d+`), returning
the rest of the input; `none` if the input does not begin with `'d'`. -/
def chompDs : List Char → Option (List Char)
  | 'd' :: rest => some (rest.dropWhile (fun c => c = 'd'))
  | _ => none

/-- The compiled form of the regex in `_reverse_hunk_header`, which in the
source is the RAW string `r'@@ -(\\d+),(\\d+) \\+(\\d+),(\\d+) @@'`.
Because the string is raw, each `\\` is two characters and reaches the
regex engine as the escaped-backslash atom `\\`, so `\\d+` matches a
literal backslash followed by one or more literal `'d'` characters, and
`\\+` matches one or more literal backslashes.  `re.match` anchors at the
start only.  The whole pattern therefore matches exactly:
`"@@ -"`, `'\'`, `d`s, `','`, `'\'`, `d`s, `' '`, at least two `'\'`,
`d`s, `','`, `'\'`, `d`s, `" @@"`, then anything. -/
def matchBuggedHunkRegex (s : String) : Bool :=
  match s.data with
  | '@' :: '@' :: ' ' :: '-' :: '\\' :: r1 =>
    match chompDs r1 with
    | some (',' :: '\\' :: r2) =>
      match chompDs r2 with
      | some (' ' :: r3) =>
        let bs := r3.takeWhile (fun c => c = '\\')
        let r4 := r3.dropWhile (fun c => c = '\\')
        if 2 ≤ bs.length then
          match chompDs r4 with
          | some (',' :: '\\' :: r5) =>
            match chompDs r5 with
            | some (' ' :: '@' :: '@' :: _) => true
            | _ => false
          | _ => false
        else false
      | _ => false
    | _ => false
  | _ => false

/-- `GitStatusSidebar._reverse_hunk_header` (lines 722–727).  When the
(bugged) regex does not match, the header is returned unchanged.  When it
does match, every captured group contains a literal backslash followed by
`'d'`s, so `map(int, match.groups())` raises `ValueError`, which the
function does not catch; that exception path is modelled as `none`. -/
def reverse_hunk_header (header : String) : Option String :=
  if matchBuggedHunkRegex header then none else some header

/-- Python `'\n'.join(lines)`. -/
def joinNL : List String → String
  | [] => ""
  | [l] => l
  | l :: l2 :: ls => l ++ "\n" ++ joinNL (l2 :: ls)

/-- Per-line transformation of the reverse branch of
`_create_patch_from_hunk`: a line starting `'+'` gets a `'-'` prefix on
its tail, a line starting `'-'` gets a `'+'` prefix, others unchanged. -/
def swapLine (line : String) : String :=
  if pyStartsWith line "+" then "-" ++ pyTail line
  else if pyStartsWith line "-" then "+" ++ pyTail line
  else line

/-- `GitStatusSidebar._create_patch_from_hunk` (lines 729–743):
`'\n'.join([header] + lines) + '\n'`, where for `reverse=True` the header
goes through `_reverse_hunk_header` (whose `ValueError` path propagates,
modelled as `none`) and each body line through the prefix swap. -/
def create_patch_from_hunk (h : Hunk) (reverse : Bool) : Option String :=
  if reverse then
    match reverse_hunk_header h.header with
    | none => none
    | some header => some (joinNL (header :: h.lines.map swapLine) ++ "\n")
  else
    some (joinNL (h.header :: h.lines) ++ "\n")

/-- Loop state of `_parse_diff_into_hunks`: the accumulated hunks, the
current hunk's body lines, and the current hunk's header (`""` before the
first header line is seen; Python string truthiness = non-emptiness). -/
structure ParseState where
  hunks : List Hunk
  cur_lines : List String
  cur_header : String

/-- One iteration of the `for line in lines` loop of
`_parse_diff_into_hunks` (lines 485–496).  On a line starting `"@@"`, the
current hunk is saved when both its header and body are non-empty (and the
body accumulator reset), and the line becomes the new header; otherwise,
when a header is open, the line is appended to the body. -/
def parseStep (st : ParseState) (line : String) : ParseState :=
  if pyStartsWith line "@@" then
    let (hunks, cur_lines) :=
      if st.cur_header ≠ "" ∧ st.cur_lines ≠ [] then
        (st.hunks ++ [mkHunk st.cur_header st.cur_lines], [])
      else (st.hunks, st.cur_lines)
    { hunks := hunks, cur_lines := cur_lines, cur_header := line }
  else if st.cur_header ≠ "" then
    { st with cur_lines := st.cur_lines ++ [line] }
  else st

/-- Saving the last open hunk after the loop (lines 499–500). -/
def finishParse (st : ParseState) : List Hunk :=
  if st.cur_header ≠ "" ∧ st.cur_lines ≠ [] then
    st.hunks ++ [mkHunk st.cur_header st.cur_lines]
  else st.hunks

/-- `GitStatusSidebar._parse_diff_into_hunks` (lines 470–506), on an
already-split line list: the loop over the lines, the final save, and the
fallback `if not hunks and lines: hunks.append(Hunk(header="", lines=lines))`. -/
def parseLines (lines : List String) : List Hunk :=
  let hunks := finishParse (lines.foldl parseStep ⟨[], [], ""⟩)
  if hunks = [] ∧ lines ≠ [] then [mkHunk "" lines] else hunks

/-- `GitStatusSidebar._parse_diff_into_hunks` on the diff text:
`lines = diff.splitlines()` then the loop. -/
def parse_diff_into_hunks (diff : String) : List Hunk :=
  parseLines (splitlines diff)

/-- `GitStatusSidebar._is_whitespace_only_change` (lines 382–411): the two
lines are equal after stripping, or (unrolling the
`for bullet in ['- ', '* ', '+ ']` loop, which returns at the first bullet
both stripped lines start with) they carry the same bullet marker and
their post-bullet contents are equal. -/
def is_whitespace_only_change (old_line new_line : String) : Bool :=
  let old_stripped := pyStrip old_line
  let new_stripped := pyStrip new_line
  if old_stripped = new_stripped then true
  else if pyStartsWith old_stripped "- " ∧ pyStartsWith new_stripped "- " then
    pyDropN old_stripped 2 = pyDropN new_stripped 2
  else if pyStartsWith old_stripped "* " ∧ pyStartsWith new_stripped "* " then
    pyDropN old_stripped 2 = pyDropN new_stripped 2
  else if pyStartsWith old_stripped "+ " ∧ pyStartsWith new_stripped "+ " then
    pyDropN old_stripped 2 = pyDropN new_stripped 2
  else false

/-- Whether the previous original line (`hunk.lines[i-1]`; `none` at
`i = 0`) exists, is non-empty and has first character `'-'`
(the `i > 0 and hunk.lines[i - 1] and hunk.lines[i - 1][:1] == '-'`
test of line 452). -/
def prevIsDash : Option String → Bool
  | some p => firstCharIs p '-'
  | none => false

/-- The `while i < len(hunk.lines)` scan of `_filter_whitespace_hunks`
(lines 426–463), written as structural recursion on the remaining lines;
`prev` carries the previous original line (`hunk.lines[i-1]`).  A `'-'`
line followed by a `'+'` line is dropped as a pair when
`_is_whitespace_only_change` holds of their tails, else both are kept
(`i += 2` either way); a `'+'` line is skipped when the previous original
line starts `'-'` (in Python that position is unreachable, since the pair
case advanced past it), else kept; all other lines are kept. -/
def filterBodyAux : Option String → List String → List String
  | _, [] => []
  | prev, [line] =>
    if firstCharIs line '-' then [line]
    else if firstCharIs line '+' then
      if prevIsDash prev then [] else [line]
    else [line]
  | prev, line :: next :: rest2 =>
    if firstCharIs line '-' then
      if firstCharIs next '+' then
        if is_whitespace_only_change (pyTail line) (pyTail next) then
          filterBodyAux (some next) rest2
        else
          line :: next :: filterBodyAux (some next) rest2
      else
        line :: filterBodyAux (some line) (next :: rest2)
    else if firstCharIs line '+' then
      if prevIsDash prev then filterBodyAux (some line) (next :: rest2)
      else line :: filterBodyAux (some line) (next :: rest2)
    else
      line :: filterBodyAux (some line) (next :: rest2)

/-- `GitStatusSidebar._filter_whitespace_hunks` (lines 413–468): every
hunk is re-emitted (the final `filtered_hunks.append` is unconditional)
with the same header and the scanned body. -/
def filter_whitespace_hunks (hunks : List Hunk) : List Hunk :=
  hunks.map (fun h => mkHunk h.header (filterBodyAux none h.lines))

/-- Python `s.endswith(suf)` for the `file_path.endswith('.md')` test. -/
def pyEndsWith (s suf : String) : Bool :=
  charsStartWith suf.data.reverse s.data.reverse

/-- `GitStatusSidebar.get_diff_hunks` (lines 341–380), with the backend's
answers passed in explicitly: `diff` is the text produced by
`git diff [--cached] -- file_path`, `status` the answer of
`get_file_status(file_path)`, and `content` the text read from the file
(consulted only on the empty-diff unstaged paths). -/
def get_diff_hunks (file_path diff status content : String)
    (staged : Bool) : List Hunk :=
  if diff = "" then
    if staged then []
    else if status = "untracked" then
      let lines := (splitlines content).map (fun l => "+" ++ l)
      [mkHunk ("@@ -0,0 +1," ++ toString lines.length ++ " @@") lines]
    else if status = "unchanged" then
      [mkHunk "" (splitlines content)]
    else []
  else
    let hunks := parse_diff_into_hunks diff
    if pyEndsWith file_path ".md" then filter_whitespace_hunks hunks
    else hunks

/-- Outcome of the external `git apply` invocation inside `_apply_patch`:
success, a `git.GitCommandError`, or any other exception. -/
inductive ApplyOutcome | success | gitCommandError | otherError
deriving DecidableEq, Repr

/-- File-system / subprocess events performed by `_apply_patch`, in
order: creating the named temporary file, writing the patch text into it,
invoking `git apply` with the argument list, and unlinking the file. -/
inductive FsEvent
  | createTempFile
  | writeTempFile (text : String)
  | gitApply (args : List String)
  | unlinkTempFile
deriving DecidableEq, Repr

/-- The argument list built in `_apply_patch` (lines 749–756):
`-R` when `reverse`, `--cached` when `cached`, `--index` when `index`,
then the temporary file's path. -/
def apply_patch_args (cached reverse index : Bool) (tmp_path : String) :
    List String :=
  (if reverse then ["-R"] else []) ++
  (if cached then ["--cached"] else []) ++
  (if index then ["--index"] else []) ++ [tmp_path]

/-- `GitStatusSidebar._apply_patch` (lines 745–764) as an event trace plus
return value: write the patch to the temporary file, run `git apply`,
return `True` on success and `False` on `git.GitCommandError`, let any
other exception propagate (`none`); the `finally:` block unlinks the
temporary file on every one of the three outcomes. -/
def apply_patch_run (patch : String) (cached reverse index : Bool)
    (tmp_path : String) (outcome : ApplyOutcome) :
    List FsEvent × Option Bool :=
  let pre := [FsEvent.createTempFile, FsEvent.writeTempFile patch,
              FsEvent.gitApply (apply_patch_args cached reverse index tmp_path)]
  match outcome with
  | .success => (pre ++ [FsEvent.unlinkTempFile], some true)
  | .gitCommandError => (pre ++ [FsEvent.unlinkTempFile], some false)
  | .otherError => (pre ++ [FsEvent.unlinkTempFile], none)

/-- What one of the hunk operations (`stage_hunk`, `unstage_hunk`,
`discard_hunk`) does, up to the external apply call: return `False` from
the bounds check, let an uncaught exception propagate (`IndexError` from
the negative-index list access, or `ValueError` from patch creation), or
invoke `_apply_patch` with a patch text and the flags
`(cached, reverse, index)` — the operation then returns whatever
`_apply_patch` returns. -/
inductive HunkOpOutcome
  | boundsFalse
  | raised
  | applied (patch : String) (cached reverse index : Bool)
deriving DecidableEq, Repr

/-- Python `lst[i]` for a possibly negative `int` index: a negative index
counts from the end; `none` models the `IndexError` raised when the index
is out of range on either side. -/
def pyListGet {α : Type} (l : List α) (i : Int) : Option α :=
  if 0 ≤ i then l.get? i.toNat
  else if 0 ≤ i + l.length then l.get? (i + l.length).toNat
  else none

/-- `GitStatusSidebar.stage_hunk` (lines 766–772), with the unstaged hunk
list (`get_diff_hunks(file_path, staged=False)`) passed in: reject
`hunk_index >= len(hunks)` with `False`, select `hunks[hunk_index]`,
build the forward patch, and apply it with `cached=True`. -/
def stage_hunk (hunks : List Hunk) (hunk_index : Int) : HunkOpOutcome :=
  if (hunks.length : Int) ≤ hunk_index then .boundsFalse
  else
    match pyListGet hunks hunk_index with
    | none => .raised
    | some h =>
      match create_patch_from_hunk h false with
      | none => .raised
      | some patch => .applied patch true false false

/-- `GitStatusSidebar.unstage_hunk` (lines 774–780), with the staged hunk
list (`get_diff_hunks(file_path, staged=True)`) passed in: same bounds
check, reverse patch, applied with `index=True`. -/
def unstage_hunk (hunks : List Hunk) (hunk_index : Int) : HunkOpOutcome :=
  if (hunks.length : Int) ≤ hunk_index then .boundsFalse
  else
    match pyListGet hunks hunk_index with
    | none => .raised
    | some h =>
      match create_patch_from_hunk h true with
      | none => .raised
      | some patch => .applied patch false false true

/-- `GitStatusSidebar.discard_hunk` (lines 782–788), with the unstaged
hunk list passed in: same bounds check, reverse patch, applied with all
flags false (plain working-tree apply). -/
def discard_hunk (hunks : List Hunk) (hunk_index : Int) : HunkOpOutcome :=
  if (hunks.length : Int) ≤ hunk_index then .boundsFalse
  else
    match pyListGet hunks hunk_index with
    | none => .raised
    | some h =>
      match create_patch_from_hunk h true with
      | none => .raised
      | some patch => .applied patch false false false

/-- The spec's target vocabulary for the apply primitive
(§4.6: `target: {workingTree|indexOnly|both}`). -/
inductive ApplyTarget | workingTree | indexOnly | both
deriving DecidableEq, Repr

/-- Modelled from the spec: the mapping between the external apply
primitive's flags `{cached, index}` (spec §6) and the spec's target
vocabulary `{workingTree, indexOnly, both}` (spec §4.6), following the
backend's documented flag semantics: `--cached` applies to the index
only, `--index` applies to both the index and the working tree, and no
flag applies to the working tree only. -/
def targetOfFlags (cached index : Bool) : ApplyTarget :=
  if cached then .indexOnly else if index then .both else .workingTree

/-- Reference segmentation, collecting the body of the open hunk with
header `h` and body-so-far `acc`: a `@@` line closes the open hunk
(emitted only when its body is non-empty) and opens a new one; end of
input closes it likewise. -/
def refParseBody (h : String) (acc : List String) : List String → List Hunk
  | [] => if acc = [] then [] else [⟨h, acc⟩]
  | l :: ls =>
    if pyStartsWith l "@@" then
      (if acc = [] then [] else [⟨h, acc⟩]) ++ refParseBody l [] ls
    else refParseBody h (acc ++ [l]) ls

/-- Reference segmentation before the first `@@` line: non-header lines
are discarded, the first `@@` line opens a hunk. -/
def refParse : List String → List Hunk
  | [] => []
  | l :: ls => if pyStartsWith l "@@" then refParseBody l [] ls else refParse ls

/-- The claim's formulation of the pair-suppression criterion: the two
contents with surrounding whitespace stripped are equal, or both stripped
contents carry the same list-bullet marker (`- `, `* `, `+ `) and their
post-bullet contents are identical. -/
def pairSuppressed (oldc newc : String) : Bool :=
  (pyStrip oldc = pyStrip newc)
  || ((pyStartsWith (pyStrip oldc) "- " && pyStartsWith (pyStrip newc) "- "
      || pyStartsWith (pyStrip oldc) "* " && pyStartsWith (pyStrip newc) "* "
      || pyStartsWith (pyStrip oldc) "+ " && pyStartsWith (pyStrip newc) "+ ")
     && (pyDropN (pyStrip oldc) 2 = pyDropN (pyStrip newc) 2))

/-! Helper lemmas -/

theorem mkHunk_of_getLast_ne (h : String) (ls : List String)
    (hne : h.data.getLast? ≠ some '\n') : mkHunk h ls = ⟨h, ls⟩ := by
  simp [mkHunk, stripTrailingNL, hne]

theorem stripTrailingNL_of_getLast_ne (s : String)
    (hne : s.data.getLast? ≠ some '\n') : stripTrailingNL s = s := by
  simp [stripTrailingNL, hne]

theorem pyStartsWith_atat_ne_empty (l : String)
    (h : pyStartsWith l "@@" = true) : l ≠ "" := by
  intro hl
  subst hl
  simp [pyStartsWith, charsStartWith] at h

theorem getLast_ne_of_not_mem (l : List Char)
    (h : '\n' ∉ l) : l.getLast? ≠ some '\n' := by
  intro hc
  rcases List.mem_getLast?_eq_getLast hc with ⟨hne, heq⟩
  exact h (heq ▸ List.getLast_mem hne)

theorem splitlinesAux_no_newline :
    ∀ (cs acc : List Char), '\n' ∉ acc →
      ∀ l ∈ splitlinesAux cs acc, '\n' ∉ l := by
  intro cs
  induction cs with
  | nil =>
      intro acc hacc l hl
      simp [splitlinesAux] at hl
      subst hl
      simpa using hacc
  | cons c cs ih =>
      intro acc hacc l hl
      by_cases hc : c = '\n'
      · subst hc
        simp [splitlinesAux] at hl
        rcases hl with hl | hl
        · subst hl; simpa using hacc
        · exact ih [] (by simp) l hl
      · rw [splitlinesAux, if_neg hc] at hl
        refine ih (c :: acc) ?_ l hl
        simp [hacc, Ne.symm hc]

theorem splitlines_no_newline (s : String) :
    ∀ l ∈ splitlines s, '\n' ∉ l.data := by
  intro l hl
  rw [splitlines] at hl
  by_cases h0 : s.data = []
  · rw [if_pos h0] at hl; simp at hl
  · rw [if_neg h0] at hl
    have hl' : l ∈ (splitlinesAux s.data []).map String.mk := by
      by_cases hlast : s.data.getLast? = some '\n'
      · rw [if_pos hlast] at hl
        exact (List.dropLast_sublist _).subset hl
      · rwa [if_neg hlast] at hl
    rcases List.mem_map.mp hl' with ⟨cs, hcs, rfl⟩
    exact splitlinesAux_no_newline s.data [] (by simp) cs hcs

theorem splitlines_getLast_ne (s : String) :
    ∀ l ∈ splitlines s, l.data.getLast? ≠ some '\n' := fun l hl =>
  getLast_ne_of_not_mem l.data (splitlines_no_newline s l hl)

theorem splitlinesAux_length (cs : List Char) :
    ∀ acc, (splitlinesAux cs acc).length = cs.count '\n' + 1 := by
  induction cs with
  | nil => intro acc; simp [splitlinesAux]
  | cons c cs ih =>
      intro acc
      by_cases hc : c = '\n'
      · subst hc
        simp [splitlinesAux, ih, List.count_cons]
      · rw [splitlinesAux, if_neg hc, ih, List.count_cons]
        simp [hc]

theorem data_eq_nil_iff (s : String) : s.data = [] ↔ s = "" := by
  constructor
  · intro h
    cases s with
    | mk data => cases h; rfl
  · intro h; subst h; rfl

theorem splitlines_ne_nil (s : String) (hs : s ≠ "") : splitlines s ≠ [] := by
  rw [splitlines]
  have h0 : ¬ s.data = [] := fun h => hs ((data_eq_nil_iff s).mp h)
  rw [if_neg h0]
  by_cases hlast : s.data.getLast? = some '\n'
  · rw [if_pos hlast]
    intro hcon
    have hmem : '\n' ∈ s.data := by
      rcases List.mem_getLast?_eq_getLast (Option.mem_def.mpr hlast) with ⟨hne, heq⟩
      exact heq ▸ List.getLast_mem hne
    have hcount : 0 < s.data.count '\n' := List.count_pos_iff.mpr hmem
    have hlen := congrArg List.length hcon
    simp [List.length_dropLast, splitlinesAux_length] at hlen
    omega
  · rw [if_neg hlast]
    intro hcon
    have hlen := congrArg List.length hcon
    simp [splitlinesAux_length] at hlen

/-! Section C1: header renumbering on reverse -/

/-- Claim C1. The claim states that building a patch with `reverse=true`
renumbers the header `@@ -10,3 +10,4 @@` into `@@ -10,4 +10,3 @@`.  The
code does not: the (raw-string, doubled-backslash) regex of
`_reverse_hunk_header` cannot match a real header, so the header comes
back unchanged, and the reverse patch built from the spec's example hunk
carries the original, un-swapped header. -/
theorem reverse_hunk_header_spec_example :
    reverse_hunk_header "@@ -10,3 +10,4 @@" = some "@@ -10,3 +10,4 @@"
    ∧ some "@@ -10,3 +10,4 @@" ≠ some "@@ -10,4 +10,3 @@"
    ∧ create_patch_from_hunk ⟨"@@ -10,3 +10,4 @@", ["+new line"]⟩ true
        = some "@@ -10,3 +10,4 @@\n-new line\n" := by
  refine ⟨by decide, by decide, by decide⟩

/-! Section C2: unstage-hunk target flag -/

/-- Claim C2. The claim states that `unstage_hunk` applies the reverse patch
with the apply target restricted to the index only, leaving the working
tree untouched.  The code builds the reverse patch from the staged hunk
but invokes `_apply_patch` with `index=True` (the `--index` flag, which
applies to both the index and the working tree), not `cached=True` (the
index-only flag): at a concrete staged hunk the operation reaches the
apply call with flags `cached=False, reverse=False, index=True`, whose
target is `both`, not `indexOnly`. -/
theorem unstage_hunk_flag_is_index_not_cached :
    unstage_hunk [⟨"@@ -1,1 +1,1 @@", ["-a", "+b"]⟩] 0
      = .applied "@@ -1,1 +1,1 @@\n+a\n-b\n" false false true
    ∧ targetOfFlags false true = .both
    ∧ ApplyTarget.both ≠ ApplyTarget.indexOnly
    ∧ (apply_patch_args false false true "tmp").contains "--index" = true
    ∧ (apply_patch_args false false true "tmp").contains "--cached" = false := by
  refine ⟨by decide, by decide, by decide, by decide, by decide⟩

/-! Section C3: hunks synthesized when the backend diff is empty -/

theorem mkHunk_append_atat (s : String) (ls : List String) :
    mkHunk (s ++ " @@") ls = ⟨s ++ " @@", ls⟩ := by
  apply mkHunk_of_getLast_ne
  rw [String.data_append, List.getLast?_append_of_ne_nil _ (by decide)]
  decide

/-- Claim C3, counterexample. The claim states that for an untracked file
(empty backend diff) the returned hunks are a single whole-file `Hunk`
with the empty string as header.  At the untracked file with content
`"a\nb"`, the code instead synthesizes the header `@@ -0,0 +1,2 @@` and
prefixes every body line with `+`. -/
theorem get_diff_hunks_untracked_header_nonempty :
    get_diff_hunks "f.txt" "" "untracked" "a\nb" false
      = [⟨"@@ -0,0 +1,2 @@", ["+a", "+b"]⟩]
    ∧ "@@ -0,0 +1,2 @@" ≠ "" := by
  refine ⟨by decide, by decide⟩

/-- Claim C3, amended. When the backend diff is empty and the unstaged view
is requested, an *unchanged* file yields a single whole-file `Hunk` with
empty header and the file's lines as body, while an *untracked* file
yields a single `Hunk` with the synthesized header `@@ -0,0 +1,N @@`
(`N` the number of lines) and `+`-prefixed body lines; in the staged view
an empty diff always yields no hunks. -/
theorem get_diff_hunks_empty_diff :
    ∀ (file_path content : String),
      get_diff_hunks file_path "" "unchanged" content false
        = [⟨"", splitlines content⟩]
      ∧ get_diff_hunks file_path "" "untracked" content false
          = [⟨"@@ -0,0 +1," ++ toString (splitlines content).length ++ " @@",
              (splitlines content).map (fun l => "+" ++ l)⟩]
      ∧ (∀ status, get_diff_hunks file_path "" status content true = []) := by
  intro file_path content
  refine ⟨?_, ?_, ?_⟩
  · show (if ("" : String) = "" then _ else _) = _
    rw [if_pos rfl, if_neg (by decide : ¬ (false = true)),
      if_neg (by decide : ¬ (("unchanged" : String) = "untracked")),
      if_pos rfl, mkHunk_of_getLast_ne _ _ (by decide)]
  · show (if ("" : String) = "" then _ else _) = _
    rw [if_pos rfl, if_neg (by decide : ¬ (false = true)), if_pos rfl]
    simp only [List.length_map]
    rw [mkHunk_append_atat]
  · intro status
    show (if ("" : String) = "" then _ else _) = _
    rw [if_pos rfl, if_pos rfl]

/-! Section C6/C7: segmentation of a diff into hunks -/

theorem foldl_parseStep_header (ls : List String) :
    ∀ (h : String) (acc : List String) (hunks : List Hunk),
      h ≠ "" → h.data.getLast? ≠ some '\n' →
      (∀ l ∈ ls, l.data.getLast? ≠ some '\n') →
      finishParse (ls.foldl parseStep ⟨hunks, acc, h⟩)
        = hunks ++ refParseBody h acc ls := by
  induction ls with
  | nil =>
      intro h acc hunks hne hnl _
      by_cases hacc : acc = []
      · simp [finishParse, refParseBody, hacc]
      · simp [finishParse, refParseBody, hacc, hne,
          mkHunk_of_getLast_ne h acc hnl]
  | cons l ls ih =>
      intro h acc hunks hne hnl hls
      rw [List.foldl_cons]
      by_cases hl : pyStartsWith l "@@" = true
      · have hlne : l ≠ "" := pyStartsWith_atat_ne_empty l hl
        have hlnl : l.data.getLast? ≠ some '\n' := hls l (by simp)
        have hls' : ∀ x ∈ ls, x.data.getLast? ≠ some '\n' :=
          fun x hx => hls x (by simp [hx])
        by_cases hacc : acc = []
        · have hstep : parseStep ⟨hunks, acc, h⟩ l = ⟨hunks, [], l⟩ := by
            simp [parseStep, hl, hacc]
          rw [hstep, ih l [] hunks hlne hlnl hls']
          rw [refParseBody, if_pos hl, if_pos hacc]
          simp
        · have hstep : parseStep ⟨hunks, acc, h⟩ l
              = ⟨hunks ++ [mkHunk h acc], [], l⟩ := by
            simp [parseStep, hl, hacc, hne]
          rw [hstep, ih l [] (hunks ++ [mkHunk h acc]) hlne hlnl hls']
          rw [refParseBody, if_pos hl, if_neg hacc,
            mkHunk_of_getLast_ne h acc hnl]
          simp
      · have hstep : parseStep ⟨hunks, acc, h⟩ l = ⟨hunks, acc ++ [l], h⟩ := by
          simp [parseStep, hl, hne]
        rw [hstep, ih h (acc ++ [l]) hunks hne hnl
          (fun x hx => hls x (by simp [hx]))]
        rw [refParseBody, if_neg (by simpa using hl)]

theorem foldl_parseStep_noheader (ls : List String) :
    ∀ hunks : List Hunk,
      (∀ l ∈ ls, l.data.getLast? ≠ some '\n') →
      finishParse (ls.foldl parseStep ⟨hunks, [], ""⟩) = hunks ++ refParse ls := by
  induction ls with
  | nil => intro hunks _; simp [finishParse, refParse]
  | cons l ls ih =>
      intro hunks hls
      rw [List.foldl_cons]
      by_cases hl : pyStartsWith l "@@" = true
      · have hstep : parseStep ⟨hunks, [], ""⟩ l = ⟨hunks, [], l⟩ := by
          simp [parseStep, hl]
        rw [hstep, foldl_parseStep_header ls l [] hunks
          (pyStartsWith_atat_ne_empty l hl) (hls l (by simp))
          (fun x hx => hls x (by simp [hx]))]
        rw [refParse, if_pos hl]
      · have hstep : parseStep ⟨hunks, [], ""⟩ l = ⟨hunks, [], ""⟩ := by
          simp [parseStep, hl]
        rw [hstep, ih hunks (fun x hx => hls x (by simp [hx]))]
        rw [refParse, if_neg (by simpa using hl)]

/-- Characterization of `_parse_diff_into_hunks` on a line list whose
lines carry no trailing newline (as produced by `splitlines`). -/
theorem parseLines_characterization (lines : List String)
    (hnl : ∀ l ∈ lines, l.data.getLast? ≠ some '\n') :
    parseLines lines =
      if refParse lines = [] ∧ lines ≠ [] then [⟨"", lines⟩]
      else refParse lines := by
  rw [parseLines, foldl_parseStep_noheader lines [] hnl]
  simp only [List.nil_append]
  rw [mkHunk_of_getLast_ne _ _ (by decide)]

theorem parse_diff_characterization_aux (diff : String) :
    parse_diff_into_hunks diff =
      if refParse (splitlines diff) = [] ∧ splitlines diff ≠ []
      then [⟨"", splitlines diff⟩]
      else refParse (splitlines diff) := by
  rw [parse_diff_into_hunks,
    parseLines_characterization _ (splitlines_getLast_ne diff)]

theorem refParse_nil_of_no_header :
    ∀ ls : List String, (∀ l ∈ ls, pyStartsWith l "@@" = false) →
      refParse ls = [] := by
  intro ls
  induction ls with
  | nil => intro _; rfl
  | cons l ls ih =>
      intro hno
      rw [refParse, if_neg (by simp [hno l (by simp)])]
      exact ih (fun x hx => hno x (by simp [hx]))

/-- Claim C6, counterexample. The claim states that every line beginning
`@@` starts a new Hunk that the parser emits.  On the diff text
`"@@ a @@\nx\n@@ b @@"` there are two `@@` lines, but the parser emits
only one hunk: the trailing hunk opened by `@@ b @@` has an empty body
and is discarded. -/
theorem parse_drops_empty_body_hunk :
    parse_diff_into_hunks "@@ a @@\nx\n@@ b @@" = [⟨"@@ a @@", ["x"]⟩]
    ∧ (splitlines "@@ a @@\nx\n@@ b @@").countP
        (fun l => pyStartsWith l "@@") = 2
    ∧ (parse_diff_into_hunks "@@ a @@\nx\n@@ b @@").length = 1 := by
  refine ⟨by decide, by decide, by decide⟩

/-- Claim C6, amended. Splitting `diffText` into lines, a line beginning
`@@` starts a new Hunk with that line as its header and all subsequent
lines up to the next `@@` line or end of input as its body, and these
Hunks are emitted in input order — except that a Hunk whose body is empty
is discarded, lines before the first `@@` line are discarded, and if no
Hunk with a non-empty body was found while the input is non-empty, the
whole input is returned as a single Hunk with empty header
(`refParseBody`/`refParse` state exactly this segmentation-with-drops). -/
theorem parse_diff_into_hunks_characterization (diff : String) :
    parse_diff_into_hunks diff =
      if refParse (splitlines diff) = [] ∧ splitlines diff ≠ []
      then [⟨"", splitlines diff⟩]
      else refParse (splitlines diff) :=
  parse_diff_characterization_aux diff

/-- Claim C7. `parseHunks` of the empty string is the empty sequence, and
`parseHunks` of any non-empty input containing no `@@` header line is a
single Hunk with empty header whose body is the whole input split into
lines. -/
theorem parse_empty_and_headerless :
    parse_diff_into_hunks "" = []
    ∧ ∀ s : String, s ≠ "" →
        (∀ l ∈ splitlines s, pyStartsWith l "@@" = false) →
        parse_diff_into_hunks s = [⟨"", splitlines s⟩] := by
  refine ⟨by decide, ?_⟩
  intro s hs hno
  rw [parse_diff_into_hunks,
    parseLines_characterization _ (splitlines_getLast_ne s),
    if_pos ⟨refParse_nil_of_no_header _ hno, splitlines_ne_nil s hs⟩]

/-- Claim C7, witness. The second part of `parse_empty_and_headerless`
applied at the spec's concrete scenario `"just text\nno header\n"`. -/
theorem parse_empty_and_headerless_witness :
    parse_diff_into_hunks "just text\nno header\n"
      = [⟨"", ["just text", "no header"]⟩] :=
  (parse_empty_and_headerless.2 "just text\nno header\n"
    (by decide) (by decide)).trans (by decide)

/-! Section C4: iterating the whitespace filter -/

theorem filterBodyAux_sublist :
    ∀ (prev : Option String) (ls : List String),
      (filterBodyAux prev ls).Sublist ls := by
  intro prev ls
  induction prev, ls using filterBodyAux.induct <;>
    simp only [filterBodyAux] <;> (try split_ifs) <;>
    first
      | exact List.Sublist.refl _
      | exact List.nil_sublist _
      | exact (by assumption : List.Sublist _ _).cons₂ _ |>.cons₂ _
      | exact ((by assumption : List.Sublist _ _).cons _).cons _
      | exact (by assumption : List.Sublist _ _).cons₂ _
      | exact (by assumption : List.Sublist _ _).cons _

/-- Claim C4, counterexample. The claim states the whitespace filter is
idempotent.  On the hunk with body `["-a", "-b ", "+b", "+a"]` the first
pass drops the whitespace-equivalent pair `("-b ", "+b")`, making `"-a"`
and `"+a"` newly adjacent; the second pass then drops that pair too, so
applying the filter twice differs from applying it once. -/
theorem filter_whitespace_not_idempotent :
    filter_whitespace_hunks (filter_whitespace_hunks
        [⟨"h", ["-a", "-b ", "+b", "+a"]⟩])
      ≠ filter_whitespace_hunks [⟨"h", ["-a", "-b ", "+b", "+a"]⟩]
    ∧ filter_whitespace_hunks [⟨"h", ["-a", "-b ", "+b", "+a"]⟩]
        = [⟨"h", ["-a", "+a"]⟩]
    ∧ filter_whitespace_hunks [⟨"h", ["-a", "+a"]⟩] = [⟨"h", []⟩] := by
  refine ⟨by decide, by decide, by decide⟩

/-- Claim C4, amended. The whitespace filter is *not* idempotent in
general (a dropped pair can make a new `-`/`+` pair adjacent, which a
second pass removes).  What does hold for every pass: the filter
preserves the number of hunks, each output hunk keeps its input hunk's
(post-init-normalized) header, and its body is a subsequence of the input
body — so each pass only ever removes lines. -/
theorem filter_whitespace_removes_only :
    ∀ hs : List Hunk,
      List.Forall₂
        (fun a b : Hunk =>
          b.header = stripTrailingNL a.header ∧ b.lines.Sublist a.lines)
        hs (filter_whitespace_hunks hs) := by
  intro hs
  induction hs with
  | nil => exact List.Forall₂.nil
  | cons h hs ih =>
      exact List.Forall₂.cons ⟨rfl, filterBodyAux_sublist none h.lines⟩ ih

/-! Section C8: the pair-suppression criterion of the whitespace filter -/

theorem is_ws_eq_pairSuppressed (a b : String) :
    is_whitespace_only_change a b = pairSuppressed a b := by
  rw [is_whitespace_only_change, pairSuppressed]
  split_ifs with h0 h1 h2 h3 <;> simp_all

theorem firstCharIs_ne (s : String) {c₁ c₂ : Char} (h : c₁ ≠ c₂) :
    firstCharIs s c₁ = true → firstCharIs s c₂ = false := by
  cases hd : s.data with
  | nil => simp [firstCharIs, hd]
  | cons a l =>
      simp only [firstCharIs, hd, decide_eq_true_eq, decide_eq_false_iff_not]
      intro h1
      subst h1
      exact fun h2 => h h2

/-- Claim C8. The scan of the whitespace filter: (1) the pair-drop test of
the code coincides with the claim's criterion (stripped contents equal,
or same bullet marker with identical post-bullet content); (2) a
`-`-prefixed line immediately followed by a `+`-prefixed line is dropped
as a pair exactly when that criterion holds of their prefix-stripped
contents, else both are kept; (3) a `+` line whose preceding original
line is not a `-` line is always retained; (4) a `-` line not immediately
followed by a `+` line is always retained; (5) every hunk's header is
returned unchanged (modulo the constructor's trailing-newline
normalization, which is the identity on every header with no trailing
newline). -/
theorem filter_scan_behavior :
    (∀ a b, is_whitespace_only_change a b = pairSuppressed a b)
    ∧ (∀ hs : List Hunk, (filter_whitespace_hunks hs).map Hunk.header
        = hs.map (fun h => stripTrailingNL h.header))
    ∧ (∀ s : String, s.data.getLast? ≠ some '\n' → stripTrailingNL s = s)
    ∧ (∀ prev l1 l2 rest,
        firstCharIs l1 '-' = true → firstCharIs l2 '+' = true →
        filterBodyAux prev (l1 :: l2 :: rest)
          = if pairSuppressed (pyTail l1) (pyTail l2)
            then filterBodyAux (some l2) rest
            else l1 :: l2 :: filterBodyAux (some l2) rest)
    ∧ (∀ prev l rest, firstCharIs l '+' = true → prevIsDash prev = false →
        filterBodyAux prev (l :: rest) = l :: filterBodyAux (some l) rest)
    ∧ (∀ prev l rest, firstCharIs l '-' = true →
        rest.head?.all (fun l2 => !(firstCharIs l2 '+')) = true →
        filterBodyAux prev (l :: rest) = l :: filterBodyAux (some l) rest) := by
  refine ⟨is_ws_eq_pairSuppressed, ?_, stripTrailingNL_of_getLast_ne, ?_, ?_, ?_⟩
  · intro hs
    simp [filter_whitespace_hunks, mkHunk, List.map_map, Function.comp]
  · intro prev l1 l2 rest h1 h2
    rw [show filterBodyAux prev (l1 :: l2 :: rest)
        = if is_whitespace_only_change (pyTail l1) (pyTail l2)
          then filterBodyAux (some l2) rest
          else l1 :: l2 :: filterBodyAux (some l2) rest from by
      simp [filterBodyAux, h1, h2]]
    rw [is_ws_eq_pairSuppressed]
  · intro prev l rest h1 h2
    have hnd : firstCharIs l '-' = false := firstCharIs_ne l (by decide) h1
    cases rest with
    | nil => simp [filterBodyAux, hnd, h1, h2]
    | cons l2 r => simp [filterBodyAux, hnd, h1, h2]
  · intro prev l rest h1 hno
    cases rest with
    | nil => simp [filterBodyAux, h1]
    | cons l2 r =>
        have h2 : firstCharIs l2 '+' = false := by simpa using hno
        simp [filterBodyAux, h1, h2]

/-- Claim C8, witness. The scan behavior instantiated at concrete lines:
the stripped-equal pair `("-a ", "+a")` is dropped, an isolated `+` line
and a `-` line with no `+` following are retained. -/
theorem filter_scan_behavior_witness :
    filterBodyAux none ["-a ", "+a"] = []
    ∧ filterBodyAux none ["+x", " c"]
        = "+x" :: filterBodyAux (some "+x") [" c"]
    ∧ filterBodyAux none ["-y", " c"]
        = "-y" :: filterBodyAux (some "-y") [" c"] := by
  refine ⟨?_, ?_, ?_⟩
  · exact (filter_scan_behavior.2.2.2.1 none "-a " "+a" []
      (by decide) (by decide)).trans (by decide)
  · exact filter_scan_behavior.2.2.2.2.1 none "+x" [" c"]
      (by decide) (by decide)
  · exact filter_scan_behavior.2.2.2.2.2 none "-y" [" c"]
      (by decide) (by decide)

/-! Section C9: transient patch file cleanup -/

/-- Claim C9. On every outcome of the external apply primitive — success,
`git.GitCommandError` (surfaced as `False`), or any other exception
(propagated) — the event trace of `_apply_patch` is exactly: create the
temporary file, write the patch text, invoke `git apply`, unlink the
temporary file; in particular its last event is the unlink, so the
transient file is removed before the call returns. -/
theorem apply_patch_always_unlinks (patch : String)
    (cached reverse index : Bool) (tmp_path : String)
    (outcome : ApplyOutcome) :
    (apply_patch_run patch cached reverse index tmp_path outcome).1
      = [.createTempFile, .writeTempFile patch,
         .gitApply (apply_patch_args cached reverse index tmp_path),
         .unlinkTempFile]
    ∧ (apply_patch_run patch cached reverse index tmp_path outcome).1.getLast?
        = some .unlinkTempFile
    ∧ (apply_patch_run patch cached reverse index tmp_path outcome).2
        = (match outcome with
           | .success => some true
           | .gitCommandError => some false
           | .otherError => none) := by
  cases outcome <;> exact ⟨rfl, rfl, rfl⟩

/-! Section C10: hunk-index bounds checking -/

/-- Claim C10, counterexample. The claim states that for *every* negative
`hunk_index` (with at least one hunk present) the operations select a
hunk counted from the end and attempt to apply it.  At one hunk and
`hunk_index = -2` the bounds check indeed does not fire, but no hunk is
selected either: the Python list access raises an uncaught `IndexError`,
so nothing is applied. -/
theorem stage_hunk_negative_overflow_raises :
    stage_hunk [⟨"@@ -1,1 +1,1 @@", ["-a", "+b"]⟩] (-2) = .raised
    ∧ HunkOpOutcome.raised ≠ .boundsFalse := by
  refine ⟨by decide, by decide⟩

/-- Claim C10, amended. `stage_hunk`, `unstage_hunk` and `discard_hunk`
reject only an out-of-range index on the high side: for
`hunk_index ≥ len(hunks)` they return the bounds failure without applying
anything.  For a negative `hunk_index` the bounds check never fires: when
`-len ≤ hunk_index` the hunk at position `hunk_index + len` (counted from
the end) is selected and its patch handed to the apply primitive (for the
reverse operations, provided header reversal does not raise); when
`hunk_index < -len` an uncaught `IndexError` propagates instead. -/
theorem hunk_ops_bounds (hunks : List Hunk) (i : Int) (h : Hunk) :
    ((hunks.length : Int) ≤ i →
      stage_hunk hunks i = .boundsFalse
      ∧ unstage_hunk hunks i = .boundsFalse
      ∧ discard_hunk hunks i = .boundsFalse)
    ∧ (i < 0 → 0 ≤ i + (hunks.length : Int) →
        hunks.get? (i + (hunks.length : Int)).toNat = some h →
        stage_hunk hunks i
          = .applied (joinNL (h.header :: h.lines) ++ "\n") true false false
        ∧ (∀ hd, reverse_hunk_header h.header = some hd →
            unstage_hunk hunks i
              = .applied (joinNL (hd :: h.lines.map swapLine) ++ "\n")
                  false false true
            ∧ discard_hunk hunks i
              = .applied (joinNL (hd :: h.lines.map swapLine) ++ "\n")
                  false false false))
    ∧ (i + (hunks.length : Int) < 0 →
        stage_hunk hunks i = .raised
        ∧ unstage_hunk hunks i = .raised
        ∧ discard_hunk hunks i = .raised) := by
  refine ⟨?_, ?_, ?_⟩
  · intro hi
    rw [stage_hunk, if_pos hi, unstage_hunk, if_pos hi, discard_hunk, if_pos hi]
    exact ⟨rfl, rfl, rfl⟩
  · intro hneg hge hget
    have hbound : ¬ ((hunks.length : Int) ≤ i) := by omega
    have hgot : pyListGet hunks i = some h := by
      rw [pyListGet, if_neg (by omega), if_pos hge]
      exact hget
    constructor
    · rw [stage_hunk, if_neg hbound, hgot]
      rfl
    · intro hd hhd
      have hcp : create_patch_from_hunk h true
          = some (joinNL (hd :: h.lines.map swapLine) ++ "\n") := by
        rw [create_patch_from_hunk, if_pos rfl, hhd]
      constructor
      · rw [unstage_hunk, if_neg hbound, hgot]
        simp [hcp]
      · rw [discard_hunk, if_neg hbound, hgot]
        simp [hcp]
  · intro hlt
    have hbound : ¬ ((hunks.length : Int) ≤ i) := by omega
    have hgot : pyListGet hunks i = none := by
      rw [pyListGet, if_neg (by omega), if_neg (by omega)]
    rw [stage_hunk, if_neg hbound, hgot, unstage_hunk, if_neg hbound, hgot,
      discard_hunk, if_neg hbound, hgot]
    exact ⟨rfl, rfl, rfl⟩

/-- Claim C10, witness. The bounds behavior instantiated at one concrete
hunk: index 5 is rejected on the high side, and index −1 selects the last
hunk and reaches the apply call for all three operations. -/
theorem hunk_ops_bounds_witness :
    stage_hunk [⟨"@@ -1,1 +1,1 @@", ["-a", "+b"]⟩] 5 = .boundsFalse
    ∧ stage_hunk [⟨"@@ -1,1 +1,1 @@", ["-a", "+b"]⟩] (-1)
        = .applied "@@ -1,1 +1,1 @@\n-a\n+b\n" true false false
    ∧ unstage_hunk [⟨"@@ -1,1 +1,1 @@", ["-a", "+b"]⟩] (-1)
        = .applied "@@ -1,1 +1,1 @@\n+a\n-b\n" false false true := by
  refine ⟨?_, ?_, ?_⟩
  · exact (hunk_ops_bounds [⟨"@@ -1,1 +1,1 @@", ["-a", "+b"]⟩] 5
      ⟨"@@ -1,1 +1,1 @@", ["-a", "+b"]⟩).1 (by decide) |>.1
  · exact ((hunk_ops_bounds [⟨"@@ -1,1 +1,1 @@", ["-a", "+b"]⟩] (-1)
      ⟨"@@ -1,1 +1,1 @@", ["-a", "+b"]⟩).2.1 (by decide) (by decide)
      (by decide)).1.trans (by decide)
  · exact (((hunk_ops_bounds [⟨"@@ -1,1 +1,1 @@", ["-a", "+b"]⟩] (-1)
      ⟨"@@ -1,1 +1,1 @@", ["-a", "+b"]⟩).2.1 (by decide) (by decide)
      (by decide)).2 "@@ -1,1 +1,1 @@" (by decide)).1.trans (by decide)

/-! Section C5: patch synthesis from one hunk -/

theorem pyStartsWith_plus_char (s : String) :
    pyStartsWith s "+" = firstCharIs s '+' := by
  cases hd : s.data with
  | nil => simp [pyStartsWith, firstCharIs, charsStartWith, hd]
  | cons a l =>
      simp only [pyStartsWith, firstCharIs, hd,
        show ("+" : String).data = ['+'] from rfl, charsStartWith,
        Bool.and_true, decide_eq_true_eq]
      exact decide_eq_decide.mpr eq_comm

theorem pyStartsWith_minus_char (s : String) :
    pyStartsWith s "-" = firstCharIs s '-' := by
  cases hd : s.data with
  | nil => simp [pyStartsWith, firstCharIs, charsStartWith, hd]
  | cons a l =>
      simp only [pyStartsWith, firstCharIs, hd,
        show ("-" : String).data = ['-'] from rfl, charsStartWith,
        Bool.and_true, decide_eq_true_eq]
      exact decide_eq_decide.mpr eq_comm

/-- Claim C5. `buildPatch` with `reverse=false` is the header followed by
the body lines joined with newlines and a trailing newline terminator;
with `reverse=true` (whenever header transformation returns, which it
does for every real header) the transformed header precedes the
transformed body, joined and newline-terminated likewise, where the
per-line transformation gives a line whose position-0 character is `+` a
`-` prefix on its tail and vice versa and leaves all other lines
unchanged. -/
theorem create_patch_spec (h : Hunk) :
    create_patch_from_hunk h false = some (joinNL (h.header :: h.lines) ++ "\n")
    ∧ (∀ hd, reverse_hunk_header h.header = some hd →
        create_patch_from_hunk h true
          = some (joinNL (hd :: h.lines.map swapLine) ++ "\n"))
    ∧ (∀ l, (firstCharIs l '+' = true → swapLine l = "-" ++ pyTail l)
          ∧ (firstCharIs l '-' = true → swapLine l = "+" ++ pyTail l)
          ∧ (firstCharIs l '+' = false → firstCharIs l '-' = false →
              swapLine l = l)) := by
  refine ⟨rfl, ?_, ?_⟩
  · intro hd hhd
    rw [create_patch_from_hunk, if_pos rfl, hhd]
  · intro l
    refine ⟨?_, ?_, ?_⟩
    · intro hplus
      rw [swapLine, if_pos (by rw [pyStartsWith_plus_char]; exact hplus)]
    · intro hminus
      have hplus : firstCharIs l '+' = false := firstCharIs_ne l (by decide) hminus
      rw [swapLine, if_neg (by rw [pyStartsWith_plus_char, hplus]; decide),
        if_pos (by rw [pyStartsWith_minus_char]; exact hminus)]
    · intro hplus hminus
      rw [swapLine, if_neg (by rw [pyStartsWith_plus_char, hplus]; decide),
        if_neg (by rw [pyStartsWith_minus_char, hminus]; decide)]

/-- Claim C5, witness. The reverse branch of `create_patch_spec` applied
at the spec's concrete hunk `@@ -10,3 +10,4 @@` with body line
`+new line` and a context line. -/
theorem create_patch_spec_witness :
    create_patch_from_hunk ⟨"@@ -10,3 +10,4 @@", ["+new line", " ctx"]⟩ true
      = some "@@ -10,3 +10,4 @@\n-new line\n ctx\n" :=
  ((create_patch_spec ⟨"@@ -10,3 +10,4 @@", ["+new line", " ctx"]⟩).2.1
    "@@ -10,3 +10,4 @@" (by decide)).trans (by decide)

end Tentacle
